import Mathlib

/-!
Verification development for the Recipe Ideas single-page application
(`src/src/App.jsx`).  The pure logic of the app — ingredient extraction,
cook-time estimation, the search pipeline (candidate fetch, id
intersection, result cap, detail lookup, heuristic filtering), the
autosuggest index and the favourites store — is shallowly embedded as
executable Lean definitions; upstream HTTP calls are modelled as oracle
functions whose `none` result stands for a rejected request.
-/

set_option autoImplicit false

namespace RecipeApp

/-! ### JavaScript string-primitive models -/

/-- Model of JS `String.prototype.trim` on a character list: drop
whitespace from both ends. -/
def trimChars (l : List Char) : List Char :=
  ((l.dropWhile fun c => c.isWhitespace).reverse.dropWhile fun c => c.isWhitespace).reverse

/-- `trim` on strings, via `trimChars`. -/
def jsTrim (s : String) : String :=
  ⟨trimChars s.data⟩

/-- Model of JS `String.prototype.split` with a single-character
separator class: `"".split` yields `[""]`, and each separator character
ends the current segment. -/
def splitChars (p : Char → Bool) : List Char → List (List Char)
  | [] => [[]]
  | c :: cs =>
    if p c then [] :: splitChars p cs
    else
      match splitChars p cs with
      | [] => [[c]]
      | s :: ss => (c :: s) :: ss

/-- Prefix test on character lists (model of JS `startsWith`). -/
def hasPre : List Char → List Char → Bool
  | [], _ => true
  | _ :: _, [] => false
  | a :: as, b :: bs => a = b && hasPre as bs

/-- Substring test on character lists (model of JS `includes`). -/
def hasSub (n : List Char) : List Char → Bool
  | [] => n.isEmpty
  | c :: cs => hasPre n (c :: cs) || hasSub n cs

/-- `needle` occurs in `hay` (model of JS `String.prototype.includes`). -/
def containsSub (needle hay : String) : Bool :=
  hasSub needle.data hay.data

/-- Model of JS `String.prototype.toLowerCase` (character-wise). -/
def jsToLower (s : String) : String :=
  ⟨s.data.map Char.toLower⟩

/-- Separator class of the regex `/\n|\.|\r/` used on instruction text. -/
def isSepChar (c : Char) : Bool :=
  c = '\n' || c = '.' || c = '\r'

/-! ### Data model -/

/-- A recipe detail record as returned by the lookup endpoint: the
fields the pipeline reads.  Ingredient/measure slot `i` (1-based in the
source: `strIngredient1 … strIngredient20`) is `slots[i-1]`; a `none`
component models an absent/null field. -/
structure Meal where
  idMeal : String
  strMeal : String
  strCategory : Option String
  strArea : Option String
  strInstructions : Option String
  strTags : Option String
  strMealThumb : Option String
  slots : List (Option String × Option String)
deriving DecidableEq

/-- One populated ingredient slot: trimmed name and trimmed measure. -/
structure IngPair where
  ingredient : String
  measure : String
deriving DecidableEq

/-- `extractIngredients(meal)`: walk slots 1..20, keep the slots whose
ingredient name is present and has non-empty trim, pairing the trimmed
name with the trimmed measure (`(measure || "").trim()`). -/
def extractIngredients (meal : Meal) : List IngPair :=
  (List.range 20).filterMap fun i =>
    match meal.slots[i]? with
    | some (some ing, measure) =>
      if ing != "" && jsTrim ing != "" then
        some ⟨jsTrim ing, jsTrim (measure.getD "")⟩
      else none
    | _ => none

/-- A segment of instruction text qualifies when its trimmed length
exceeds 6 characters (`s.trim().length > 6`). -/
def qualifiesSeg (s : List Char) : Bool :=
  decide (6 < (trimChars s).length)

/-- Number of qualifying segments of an instruction string, splitting on
newline, period or carriage return. -/
def qualSegCount (instr : String) : Nat :=
  ((splitChars isSepChar instr.data).filter qualifiesSeg).length

/-- `estimateCookTime(meal)`: 10 base minutes, plus 2 per extracted
ingredient, plus 2 per qualifying instruction segment, capped at 120. -/
def estimateCookTime (meal : Meal) : Nat :=
  let ings := extractIngredients meal
  let base := 10
  let byIngs := ings.length * 2
  let bySteps := qualSegCount (meal.strInstructions.getD "") * 2
  min 120 (base + byIngs + bySteps)

/-! ### Spec-side restatement of the cook-time formula (for claim C2)

These definitions follow the specification's words — "`min(120,
round(10 + 2*ingredientCount + 2*qualifyingInstructionSegments))`, where
`ingredientCount` is the number of populated ingredient slots (slots
1..20 with non-empty trimmed names)" — to be compared with
`estimateCookTime` above. -/

/-- Spec notion: slot `i` (0-based) is populated when its ingredient
name is present and has a non-empty trim. -/
def populatedSlot (meal : Meal) (i : Nat) : Bool :=
  match meal.slots[i]? with
  | some (some ing, _) => jsTrim ing != ""
  | _ => false

/-- Spec notion: the number of populated ingredient slots among 1..20. -/
def specIngredientCount (meal : Meal) : Nat :=
  (List.range 20).countP (populatedSlot meal)

/-- Spec formula for the estimated minutes (rounding is the identity on
these natural numbers). -/
def specEstimatedMinutes (meal : Meal) : Nat :=
  min 120 (10 + 2 * specIngredientCount meal + 2 * qualSegCount (meal.strInstructions.getD ""))

/-! ### Supporting lemmas for the cook-time claims -/

theorem length_filterMap_eq_countP {α β : Type} (f : α → Option β) (l : List α) :
    (l.filterMap f).length = l.countP fun a => (f a).isSome := by
  induction l with
  | nil => rfl
  | cons a as ih =>
    rw [List.filterMap_cons, List.countP_cons]
    cases h : f a <;> simp [h, ih, Nat.add_comm]

theorem length_filterMap_le {α β : Type} (f : α → Option β) (l : List α) :
    (l.filterMap f).length ≤ l.length := by
  rw [length_filterMap_eq_countP]
  exact List.countP_le_length _

theorem jsTrim_empty : jsTrim "" = "" := rfl

theorem extract_length_eq_spec (meal : Meal) :
    (extractIngredients meal).length = specIngredientCount meal := by
  rw [extractIngredients, length_filterMap_eq_countP, specIngredientCount]
  apply List.countP_congr
  intro i _
  simp only [populatedSlot]
  cases h : meal.slots[i]? with
  | none => rfl
  | some pair =>
    rcases pair with ⟨ing?, measure⟩
    cases ing? with
    | none => rfl
    | some ing =>
      by_cases hi : ing = ""
      · subst hi
        simp [jsTrim_empty]
      · by_cases ht : jsTrim ing = ""
        · simp [hi, ht]
        · simp [hi, ht]

/-! ### Monotonicity machinery for the cook-time estimate (claim C6) -/

theorem dropWhile_append' {α : Type} (p : α → Bool) (a b : List α) :
    (a ++ b).dropWhile p =
      if (a.dropWhile p).isEmpty then b.dropWhile p else a.dropWhile p ++ b := by
  induction a with
  | nil => simp
  | cons c cs ih =>
    by_cases hc : p c
    · simpa [List.dropWhile_cons, hc] using ih
    · simp [List.dropWhile_cons, hc]

theorem dropWhile_length_le {α : Type} (p : α → Bool) (l : List α) :
    (l.dropWhile p).length ≤ l.length := by
  induction l with
  | nil => simp
  | cons c cs ih =>
    by_cases hc : p c
    · simp only [List.dropWhile_cons, hc, if_true]
      exact Nat.le_succ_of_le ih
    · simp [List.dropWhile_cons, hc]

theorem dropWhile_length_le_prepend {α : Type} (p : α → Bool) (y x : List α) :
    (x.dropWhile p).length ≤ ((y ++ x).dropWhile p).length := by
  rw [dropWhile_append' p y x]
  by_cases hy : (y.dropWhile p).isEmpty
  · rw [if_pos hy]
  · rw [if_neg hy, List.length_append]
    calc (x.dropWhile p).length ≤ x.length := dropWhile_length_le p x
      _ ≤ (y.dropWhile p).length + x.length := Nat.le_add_left _ _

/-- Appending text to a segment never shrinks its trimmed length. -/
theorem trimChars_length_mono (u v : List Char) :
    (trimChars u).length ≤ (trimChars (u ++ v)).length := by
  by_cases h : (u.dropWhile fun c => c.isWhitespace) = []
  · simp [trimChars, h]
  · have h2 : ((u ++ v).dropWhile fun c => c.isWhitespace) =
        (u.dropWhile fun c => c.isWhitespace) ++ v := by
      rw [dropWhile_append']
      rw [if_neg (by simpa [List.isEmpty_iff] using h)]
    unfold trimChars
    rw [h2, List.reverse_append]
    simp only [List.length_reverse]
    exact dropWhile_length_le_prepend _ v.reverse _

theorem qualifiesSeg_append (u v : List Char) (h : qualifiesSeg u = true) :
    qualifiesSeg (u ++ v) = true := by
  simp only [qualifiesSeg, decide_eq_true_eq] at h ⊢
  exact Nat.lt_of_lt_of_le h (trimChars_length_mono u v)

/-- Prepend characters onto the first segment of a split result. -/
def prependHead (a : List Char) : List (List Char) → List (List Char)
  | [] => [a]
  | s :: ss => (a ++ s) :: ss

theorem prependHead_prependHead (a b : List Char) (X : List (List Char)) :
    prependHead a (prependHead b X) = prependHead (a ++ b) X := by
  cases X <;> simp [prependHead]

theorem splitChars_ne_nil (p : Char → Bool) (l : List Char) :
    splitChars p l ≠ [] := by
  cases l with
  | nil => simp [splitChars]
  | cons c cs =>
    rw [splitChars]
    by_cases hc : p c
    · simp [hc]
    · simp only [hc, if_false]
      cases splitChars p cs <;> simp

theorem prependHead_nil_of_ne (X : List (List Char)) (h : X ≠ []) :
    prependHead [] X = X := by
  cases X with
  | nil => exact absurd rfl h
  | cons s ss => simp [prependHead]

theorem splitChars_cons_neg (p : Char → Bool) (c : Char) (cs : List Char)
    (hc : p c = false) :
    splitChars p (c :: cs) = prependHead [c] (splitChars p cs) := by
  rw [splitChars, hc]
  simp only [Bool.false_eq_true, if_false]
  cases splitChars p cs <;> simp [prependHead]

/-- Tail-style counter for qualifying segments: `acc` is the portion of
the current segment consumed so far. -/
def segCountAux (p : Char → Bool) (q : List Char → Bool) : List Char → List Char → Nat
  | acc, [] => if q acc then 1 else 0
  | acc, c :: cs =>
    if p c then (if q acc then 1 else 0) + segCountAux p q [] cs
    else segCountAux p q (acc ++ [c]) cs

theorem filter_prependHead_splitChars (p : Char → Bool) (q : List Char → Bool)
    (l : List Char) :
    ∀ acc, ((prependHead acc (splitChars p l)).filter q).length = segCountAux p q acc l := by
  induction l with
  | nil =>
    intro acc
    simp only [splitChars, prependHead, List.append_nil, segCountAux]
    by_cases h : q acc <;> simp [h]
  | cons c cs ih =>
    intro acc
    by_cases hc : p c
    · rw [splitChars, if_pos hc]
      have hX := splitChars_ne_nil p cs
      rw [segCountAux, if_pos hc, ← ih []]
      rw [prependHead_nil_of_ne _ hX]
      simp only [prependHead, List.append_nil, List.filter_cons]
      by_cases h : q acc <;> simp [h, Nat.add_comm]
    · rw [splitChars_cons_neg p c cs (by simpa using hc), prependHead_prependHead]
      rw [segCountAux, if_neg hc]
      exact ih (acc ++ [c])

theorem segCountAux_pos (p : Char → Bool) (q : List Char → Bool)
    (hq : ∀ u c, q u = true → q (u ++ [c]) = true) (m : List Char) :
    ∀ acc, q acc = true → 1 ≤ segCountAux p q acc m := by
  induction m with
  | nil =>
    intro acc h
    simp [segCountAux, h]
  | cons c cs ih =>
    intro acc h
    rw [segCountAux]
    by_cases hc : p c
    · rw [if_pos hc, if_pos h]
      exact Nat.le_add_right_of_le (Nat.le_refl 1)
    · rw [if_neg hc]
      exact ih (acc ++ [c]) (hq acc c h)

theorem segCountAux_append_le (p : Char → Bool) (q : List Char → Bool)
    (hq : ∀ u c, q u = true → q (u ++ [c]) = true) (l : List Char) :
    ∀ m acc, segCountAux p q acc l ≤ segCountAux p q acc (l ++ m) := by
  induction l with
  | nil =>
    intro m acc
    simp only [List.nil_append, segCountAux]
    by_cases h : q acc
    · rw [if_pos h]
      exact segCountAux_pos p q hq m acc h
    · rw [if_neg h]
      exact Nat.zero_le _
  | cons c cs ih =>
    intro m acc
    simp only [List.cons_append, segCountAux]
    by_cases hc : p c
    · rw [if_pos hc, if_pos hc]
      exact Nat.add_le_add_left (ih m []) _
    · rw [if_neg hc, if_neg hc]
      exact ih m (acc ++ [c])

theorem qualSegCount_eq_aux (s : String) :
    qualSegCount s = segCountAux isSepChar qualifiesSeg [] s.data := by
  rw [qualSegCount, ← filter_prependHead_splitChars,
    prependHead_nil_of_ne _ (splitChars_ne_nil isSepChar s.data)]

/-- Extending an instruction string never decreases the number of
qualifying segments. -/
theorem qualSegCount_mono (s t : String) :
    qualSegCount s ≤ qualSegCount (s ++ t) := by
  rw [qualSegCount_eq_aux, qualSegCount_eq_aux]
  have hdata : (s ++ t).data = s.data ++ t.data := by
    cases s; cases t; rfl
  rw [hdata]
  exact segCountAux_append_le isSepChar qualifiesSeg
    (fun u c => qualifiesSeg_append u [c]) s.data t.data []

theorem getElem?_append_some {α : Type} :
    ∀ (l₁ : List α) (l₂ : List α) (i : Nat) (x : α),
      l₁[i]? = some x → (l₁ ++ l₂)[i]? = some x := by
  intro l₁
  induction l₁ with
  | nil => intro l₂ i x h; simp at h
  | cons c cs ih =>
    intro l₂ i x h
    cases i with
    | zero => simpa using h
    | succ j =>
      simp only [List.cons_append, List.getElem?_cons_succ] at h ⊢
      exact ih l₂ j x h

theorem length_filterMap_mono {α β γ : Type} (f : α → Option β) (g : α → Option γ)
    (l : List α) (h : ∀ a ∈ l, (f a).isSome → (g a).isSome) :
    (l.filterMap f).length ≤ (l.filterMap g).length := by
  induction l with
  | nil => simp
  | cons a as ih =>
    have ih' := ih fun x hx => h x (List.mem_cons_of_mem a hx)
    rw [List.filterMap_cons, List.filterMap_cons]
    cases hf : f a with
    | none =>
      cases hg : g a with
      | none => exact ih'
      | some _ =>
        simp only [List.length_cons]
        exact Nat.le_succ_of_le ih'
    | some bv =>
      have : (g a).isSome := h a (List.mem_cons_self a as) (by simp [hf])
      cases hg : g a with
      | none => rw [hg] at this; simp at this
      | some _ =>
        simp only [List.length_cons]
        exact Nat.succ_le_succ ih'

theorem extract_length_slot_mono (meal : Meal) (slot : Option String × Option String) :
    (extractIngredients meal).length ≤
      (extractIngredients { meal with slots := meal.slots ++ [slot] }).length := by
  apply length_filterMap_mono
  intro i _ hsome
  cases h : meal.slots[i]? with
  | none => rw [h] at hsome; simp at hsome
  | some pair =>
    rw [h] at hsome
    have h' : (meal.slots ++ [slot])[i]? = some pair := getElem?_append_some _ _ i pair h
    simpa [h'] using hsome

/-! ### Filters and classification heuristics -/

/-- A cuisine checkbox option: display label plus matching value. -/
structure CuisineOpt where
  label : String
  value : String
deriving DecidableEq

/-- The active filter configuration: selected cuisines, the cooking-time
slider value, selected meal-time chips and selected diet chips. -/
structure Filters where
  cuisines : List CuisineOpt
  cookTime : Nat
  mealTimes : List String
  diet : List String
deriving DecidableEq

def meatKeywords : List String :=
  ["chicken", "beef", "pork", "mutton", "lamb", "bacon", "fish", "shrimp",
   "prawn", "crab", "clam", "oyster", "tuna", "salmon"]

def seafoodKeywords : List String :=
  ["fish", "shrimp", "prawn", "crab", "clam", "oyster", "tuna", "salmon"]

def drinkKeywords : List String :=
  ["drink", "beverage", "shake", "smoothie", "cocktail", "juice"]

/-- The lowercased ingredient names of a meal joined with spaces
(`ings.join(" ")` in the source). -/
def ingJoin (meal : Meal) : String :=
  String.intercalate " " ((extractIngredients meal).map fun x => jsToLower x.ingredient)

/-- `isVeg`: no meat/seafood keyword occurs in the joined ingredients. -/
def isVeg (meal : Meal) : Bool :=
  !(meatKeywords.any fun k => containsSub k (ingJoin meal))

/-- `isSea`: a seafood keyword occurs in the joined ingredients, or the
lowercased category contains "seafood". -/
def isSea (meal : Meal) : Bool :=
  (seafoodKeywords.any fun k => containsSub k (ingJoin meal)) ||
    containsSub "seafood" (jsToLower (meal.strCategory.getD ""))

/-- `isDrink`: a drink keyword occurs (case-insensitively) in
"category name" (the template `\x24{category} \x24{meal.strMeal}`). -/
def isDrink (meal : Meal) : Bool :=
  drinkKeywords.any fun k =>
    containsSub k (jsToLower (jsToLower (meal.strCategory.getD "") ++ " " ++ meal.strMeal))

/-- The per-label diet test inside `diet.some(...)`. -/
def dietLabelOk (meal : Meal) (d : String) : Bool :=
  (d == "Veg" && isVeg meal) ||
  (d == "Non-Veg" && !isVeg meal && !isDrink meal) ||
  (d == "Sea-food" && isSea meal) ||
  (d == "Drinks" && isDrink meal)

/-- `dietOk`: empty diet selection passes everything. -/
def dietOk (diet : List String) (meal : Meal) : Bool :=
  diet.isEmpty || diet.any (dietLabelOk meal)

/-- `cuisineOk`: empty selection passes; otherwise a chosen matching
value (lowercased) must be a substring of the area or the category. -/
def cuisineOk (cuisines : List CuisineOpt) (meal : Meal) : Bool :=
  cuisines.isEmpty || cuisines.any fun c =>
    containsSub (jsToLower c.value) (jsToLower (meal.strArea.getD "")) ||
    containsSub (jsToLower c.value) (jsToLower (meal.strCategory.getD ""))

/-- `timeOk`: the estimate fits under the slider, or the slider is at or
above 70 ("more than an hour" sentinel). -/
def timeOk (cookTime minutes : Nat) : Bool :=
  decide (minutes ≤ cookTime) || decide (70 ≤ cookTime)

/-- `mealTimeOk`: empty selection passes; otherwise a chosen label must
occur (case-insensitively) in the meal name or its tags. -/
def mealTimeOk (mealTimes : List String) (meal : Meal) : Bool :=
  mealTimes.isEmpty || mealTimes.any fun t =>
    containsSub (jsToLower t) (jsToLower meal.strMeal) ||
    containsSub (jsToLower t) (jsToLower (meal.strTags.getD ""))

/-- The retention predicate of Step 5: all four match flags. -/
def mealFilter (f : Filters) (meal : Meal) : Bool :=
  cuisineOk f.cuisines meal &&
  timeOk f.cookTime (estimateCookTime meal) &&
  dietOk f.diet meal &&
  mealTimeOk f.mealTimes meal

/-! ### The search pipeline -/

/-- First-occurrence deduplication: the observable content of a JS `Set`
built from a list (insertion order, repeats skipped). -/
def dedupFirst (l : List String) : List String :=
  l.foldl (fun acc x => if x ∈ acc then acc else acc ++ [x]) []

/-- Intersection loop over the per-ingredient id sets: start from the
first set, then keep only ids present in each further set.  An empty
family yields the empty list (`intersection || []`). -/
def intersectIds : List (List String) → List String
  | [] => []
  | s :: rest => rest.foldl (fun inter t => inter.filter fun x => t.contains x) s

/-- `Promise.all`: all results, or `none` as soon as any member failed. -/
def allSome {α : Type} : List (Option α) → Option (List α)
  | [] => some []
  | none :: _ => none
  | some a :: rest => (allSome rest).map (a :: ·)

/-- The generic user-visible error message of a failed run. -/
def errorMessage : String := "Could not load recipes. Please try again."

/-- The state the `run` effect leaves behind: the error banner text, the
result list and the selected meal. -/
structure RunState where
  error : String
  meals : List Meal
  selectedMeal : Option Meal
deriving DecidableEq

/-- The ids surviving intersection and the 20-entry cap, given the
Step-1 responses (used to state Step-4 properties). -/
def pipelineIds (fetchCand : String → Option (List String))
    (selectedIngredients : List String) : List String :=
  match allSome (selectedIngredients.map fetchCand) with
  | none => []
  | some lists => (intersectIds (lists.map dedupFirst)).take 20

/-- The `run` effect as a pure function of its oracles.
`fetchCand ing = none` models a rejected filter-by-ingredient request,
otherwise the returned candidate id list.  `lookup id = none` models a
rejected lookup request, `some none` a response with no meal record, and
`some (some m)` a found record. -/
def run (fetchCand : String → Option (List String))
    (lookup : String → Option (Option Meal))
    (f : Filters) (selectedIngredients : List String) : RunState :=
  if selectedIngredients.length = 0 then ⟨"", [], none⟩
  else
    match allSome (selectedIngredients.map fetchCand) with
    | none => ⟨errorMessage, [], none⟩
    | some lists =>
      match allSome (((intersectIds (lists.map dedupFirst)).take 20).map lookup) with
      | none => ⟨errorMessage, [], none⟩
      | some details =>
        ⟨"", (details.filterMap id).filter (mealFilter f),
          ((details.filterMap id).filter (mealFilter f)).head?⟩

/-! ### Autosuggest and favourites -/

/-- The autosuggest computation: nothing for an empty query, otherwise
the catalog names that contain the lowercased query and are not already
chosen, capped at 10. -/
def suggestions (allIngredients selectedIngredients : List String)
    (debouncedQuery : String) : List String :=
  if debouncedQuery = "" then []
  else
    (allIngredients.filter fun n =>
      containsSub (jsToLower debouncedQuery) (jsToLower n) &&
        !(selectedIngredients.contains n)).take 10

/-- A favourites entry: meal id and display name. -/
structure Fav where
  idMeal : String
  strMeal : String
deriving DecidableEq

/-- `toggleFavourite`: remove every entry with the meal's id when one
exists, otherwise append the (id, name) pair. -/
def toggleFavourite (f : List Fav) (meal : Meal) : List Fav :=
  if f.any fun x => x.idMeal == meal.idMeal then
    f.filter fun x => !(x.idMeal == meal.idMeal)
  else
    f ++ [⟨meal.idMeal, meal.strMeal⟩]

/-! ### Supporting lemmas for the pipeline -/

theorem allSome_eq_some {α : Type} :
    ∀ (xs : List (Option α)) (ys : List α), allSome xs = some ys → xs = ys.map some := by
  intro xs
  induction xs with
  | nil => intro ys h; simp [allSome] at h; simp [← h]
  | cons x rest ih =>
    intro ys h
    cases x with
    | none => simp [allSome] at h
    | some a =>
      rw [allSome] at h
      cases hrest : allSome rest with
      | none => rw [hrest] at h; simp at h
      | some zs =>
        rw [hrest] at h
        have h' : a :: zs = ys := by simpa using h
        rw [← h', List.map_cons]
        exact congrArg (some a :: ·) (ih zs hrest)

theorem allSome_none_of_mem {α : Type} :
    ∀ xs : List (Option α), none ∈ xs → allSome xs = none := by
  intro xs
  induction xs with
  | nil => intro h; simp at h
  | cons x rest ih =>
    intro h
    cases x with
    | none => rfl
    | some a =>
      have : none ∈ rest := by
        rcases List.mem_cons.1 h with h' | h'
        · exact absurd h'.symm (Option.some_ne_none a)
        · exact h'
      rw [allSome, ih this]
      rfl

theorem allSome_isSome {α : Type} :
    ∀ xs : List (Option α), (∀ x ∈ xs, x ≠ none) → ∃ ys, allSome xs = some ys := by
  intro xs
  induction xs with
  | nil => intro _; exact ⟨[], rfl⟩
  | cons x rest ih =>
    intro h
    cases x with
    | none => exact absurd rfl (h none (List.mem_cons_self _ _))
    | some a =>
      obtain ⟨ys, hys⟩ := ih fun x hx => h x (List.mem_cons_of_mem _ hx)
      exact ⟨a :: ys, by rw [allSome, hys]; rfl⟩

theorem mem_foldl_dedup (x : String) :
    ∀ (l : List String) (acc : List String),
      x ∈ l.foldl (fun acc y => if y ∈ acc then acc else acc ++ [y]) acc →
      x ∈ acc ∨ x ∈ l := by
  intro l
  induction l with
  | nil => intro acc h; exact Or.inl h
  | cons a as ih =>
    intro acc h
    rcases ih (if a ∈ acc then acc else acc ++ [a]) h with h' | h'
    · by_cases ha : a ∈ acc
      · rw [if_pos ha] at h'
        exact Or.inl h'
      · rw [if_neg ha] at h'
        rcases List.mem_append.1 h' with h'' | h''
        · exact Or.inl h''
        · simp only [List.mem_singleton] at h''
          exact Or.inr (h'' ▸ List.mem_cons_self a as)
    · exact Or.inr (List.mem_cons_of_mem a h')

theorem mem_dedupFirst {x : String} {l : List String} (h : x ∈ dedupFirst l) : x ∈ l := by
  rcases mem_foldl_dedup x l [] h with h' | h'
  · simp at h'
  · exact h'

theorem mem_foldl_inter (x : String) :
    ∀ (rest : List (List String)) (init : List String),
      x ∈ rest.foldl (fun inter t => inter.filter fun y => t.contains y) init →
      x ∈ init ∧ ∀ t ∈ rest, x ∈ t := by
  intro rest
  induction rest with
  | nil => intro init h; exact ⟨h, by intro t ht; simp at ht⟩
  | cons s ss ih =>
    intro init h
    obtain ⟨hmem, hrest⟩ := ih (init.filter fun y => s.contains y) h
    have h1 := List.mem_filter.1 hmem
    refine ⟨h1.1, ?_⟩
    intro t ht
    rcases List.mem_cons.1 ht with h' | h'
    · subst h'
      simpa using h1.2
    · exact hrest t h'

theorem mem_intersectIds {x : String} {sets : List (List String)}
    (h : x ∈ intersectIds sets) : ∀ s ∈ sets, x ∈ s := by
  cases sets with
  | nil => intro s hs; simp at hs
  | cons s₀ rest =>
    rw [intersectIds] at h
    obtain ⟨h0, hr⟩ := mem_foldl_inter x rest s₀ h
    intro s hs
    rcases List.mem_cons.1 hs with h' | h'
    · exact h' ▸ h0
    · exact hr s h'

/-! ### Concrete fixtures for witnesses and counterexamples -/

/-- A minimal recipe record. -/
def sampleMeal : Meal := ⟨"1", "A", none, none, none, none, none, []⟩

/-- A recipe record with identifier 52772 and display name "New". -/
def sampleMeal52772 : Meal := ⟨"52772", "New", none, none, none, none, none, []⟩

/-- The app's initial filter state: no cuisines, 45-minute slider, no
meal times, no diets. -/
def defaultFilters : Filters := ⟨[], 45, [], []⟩

/-- Candidate-fetch oracle answering every ingredient with ids 1 and 2. -/
def wFetch : String → Option (List String) := fun _ => some ["1", "2"]

/-- Lookup oracle: id 1 resolves to `sampleMeal`, every other id
completes with an empty payload (no meal found). -/
def wLookup : String → Option (Option Meal) :=
  fun id => if id = "1" then some (some sampleMeal) else some none

theorem wLookup_consistent : ∀ (id : String) (m : Meal),
    wLookup id = some (some m) → m.idMeal = id := by
  intro id m h
  unfold wLookup at h
  by_cases hid : id = "1"
  · rw [if_pos hid] at h
    injection h with h'
    injection h' with h''
    rw [← h'', hid]
    rfl
  · rw [if_neg hid] at h
    exact absurd h (by simp)

/-! ### Claims -/

/-- C2: the estimated cooking time equals
`min(120, round(10 + 2*ingredientCount + 2*qualifyingInstructionSegments))`
with `ingredientCount` the number of populated ingredient slots and
`qualifyingInstructionSegments` the number of instruction segments whose
trimmed length exceeds 6, and the value always lies in [10, 120]. -/
theorem C2_estimated_minutes (meal : Meal) :
    estimateCookTime meal = specEstimatedMinutes meal ∧
    10 ≤ estimateCookTime meal ∧ estimateCookTime meal ≤ 120 := by
  refine ⟨?_, ?_, ?_⟩
  · simp only [estimateCookTime, specEstimatedMinutes, extract_length_eq_spec]
    congr 1
    ring
  · simp only [estimateCookTime]
    exact Nat.le_min.mpr ⟨by omega, by omega⟩
  · simp only [estimateCookTime]
    exact Nat.min_le_left _ _

/-- C5: with no cuisine, diet or meal-time selection and the
cooking-time slider at or above the 70-minute "more than one hour"
sentinel, the Step-5 filter retains every detail record. -/
theorem C5_filter_noop (ct : Nat) (l : List Meal) (h : 70 ≤ ct) :
    l.filter (mealFilter ⟨[], ct, [], []⟩) = l := by
  apply List.filter_eq_self.mpr
  intro m _
  simp [mealFilter, cuisineOk, dietOk, mealTimeOk, timeOk, h]

theorem C5_filter_noop_witness :
    [sampleMeal].filter (mealFilter ⟨[], 70, [], []⟩) = [sampleMeal] :=
  C5_filter_noop 70 [sampleMeal] (by decide)

/-- C6: the cook-time estimate is monotone: appending an ingredient
slot never decreases it, and extending the instruction text never
decreases it. -/
theorem C6_estimate_monotone (meal : Meal) (slot : Option String × Option String)
    (ext : String) :
    estimateCookTime meal ≤ estimateCookTime { meal with slots := meal.slots ++ [slot] } ∧
    estimateCookTime meal ≤ estimateCookTime { meal with strInstructions := some (meal.strInstructions.getD "" ++ ext) } := by
  constructor
  · have h := extract_length_slot_mono meal slot
    simp only [estimateCookTime]
    have hins : ({ meal with slots := meal.slots ++ [slot] } : Meal).strInstructions =
        meal.strInstructions := rfl
    rw [hins]
    exact min_le_min (Nat.le_refl 120) (by omega)
  · have h := qualSegCount_mono (meal.strInstructions.getD "") ext
    simp only [estimateCookTime]
    have hslots : extractIngredients { meal with strInstructions := some (meal.strInstructions.getD "" ++ ext) } = extractIngredients meal := rfl
    have hgd : ({ meal with strInstructions := some (meal.strInstructions.getD "" ++ ext) } : Meal).strInstructions.getD "" = meal.strInstructions.getD "" ++ ext := rfl
    rw [hslots, hgd]
    exact min_le_min (Nat.le_refl 120) (by omega)

/-- C7 counterexample: from a favourites state already holding an entry
with id 52772 but a different display name, toggling twice does not
restore the original state (the stored name is replaced). -/
theorem C7_toggle_cex :
    toggleFavourite (toggleFavourite [⟨"52772", "Old"⟩] sampleMeal52772) sampleMeal52772 ≠
      [⟨"52772", "Old"⟩] := by decide

/-- C7 (amended): when no entry with the recipe's id is present, the
first toggle appends the (id, name) pair and a second toggle restores
the original favourites list. -/
theorem C7_toggle_roundtrip (f : List Fav) (meal : Meal)
    (h : (f.any fun x => x.idMeal == meal.idMeal) = false) :
    toggleFavourite f meal = f ++ [⟨meal.idMeal, meal.strMeal⟩] ∧
    toggleFavourite (toggleFavourite f meal) meal = f := by
  have hall : ∀ x ∈ f, (x.idMeal == meal.idMeal) = false := by
    intro x hx
    cases hb : (x.idMeal == meal.idMeal) with
    | false => rfl
    | true =>
      have : f.any (fun x => x.idMeal == meal.idMeal) = true :=
        List.any_eq_true.mpr ⟨x, hx, hb⟩
      rw [h] at this
      exact absurd this Bool.false_ne_true
  have h1 : toggleFavourite f meal = f ++ [⟨meal.idMeal, meal.strMeal⟩] := by
    rw [toggleFavourite, if_neg (by simp [h])]
  refine ⟨h1, ?_⟩
  rw [h1, toggleFavourite, if_pos (by simp [List.any_append])]
  rw [List.filter_append]
  have hf : (f.filter fun x => !(x.idMeal == meal.idMeal)) = f := by
    apply List.filter_eq_self.mpr
    intro x hx
    simp [hall x hx]
  rw [hf]
  simp

theorem C7_toggle_roundtrip_witness :
    toggleFavourite [] sampleMeal52772 = [⟨"52772", "New"⟩] ∧
    toggleFavourite (toggleFavourite [] sampleMeal52772) sampleMeal52772 = [] := by
  have h := C7_toggle_roundtrip [] sampleMeal52772 (by decide)
  exact ⟨h.1, h.2⟩

/-- C8: with no chosen ingredients the run short-circuits: empty result
list, no selected recipe, no error, and—because the result is the same
for every oracle—no upstream request is consulted. -/
theorem C8_empty_short_circuit (fetchCand : String → Option (List String))
    (lookup : String → Option (Option Meal)) (f : Filters) :
    run fetchCand lookup f [] = ⟨"", [], none⟩ := rfl

/-- C10: no recipe can satisfy a chosen "Veg" label and a chosen
"Non-Veg" label at once: "Veg" requires `isVeg` and "Non-Veg" requires
its negation. -/
theorem C10_veg_nonveg_exclusive (meal : Meal) :
    (dietLabelOk meal "Veg" && dietLabelOk meal "Non-Veg") = false := by
  cases hv : isVeg meal <;> cases hd : isDrink meal <;> cases hs : isSea meal <;>
    simp [dietLabelOk, hv, hd, hs]

/-- C9: an empty query yields no suggestions; otherwise the result is
exactly the catalog names containing the query case-insensitively and
not already chosen, in catalog order (a sublist of the catalog),
truncated to at most 10 entries. -/
theorem C9_autosuggest (cat sel : List String) (q : String) :
    (q = "" → suggestions cat sel q = []) ∧
    (suggestions cat sel q).length ≤ 10 ∧
    (suggestions cat sel q).Sublist cat ∧
    (q ≠ "" → suggestions cat sel q =
      (cat.filter fun n =>
        containsSub (jsToLower q) (jsToLower n) && !(sel.contains n)).take 10) := by
  by_cases hq : q = ""
  · subst hq
    refine ⟨fun _ => rfl, ?_, ?_, fun hne => absurd rfl hne⟩
    · simp [suggestions]
    · simp [suggestions]
  · have hs : suggestions cat sel q =
        (cat.filter fun n =>
          containsSub (jsToLower q) (jsToLower n) && !(sel.contains n)).take 10 := by
      rw [suggestions, if_neg hq]
    refine ⟨fun h => absurd h hq, ?_, ?_, fun _ => hs⟩
    · rw [hs]
      exact List.length_take_le _ _
    · rw [hs]
      exact (List.take_sublist _ _).trans (List.filter_sublist _)

theorem C9_autosuggest_witness :
    suggestions ["Chicken", "Salt"] [] "" = [] ∧
    suggestions ["Chicken", "Salt"] ["Chicken"] "chi" = [] ∧
    suggestions ["Chicken", "Salt"] [] "chi" = ["Chicken"] := by
  refine ⟨(C9_autosuggest ["Chicken", "Salt"] [] "").1 rfl, ?_, ?_⟩
  · rw [(C9_autosuggest ["Chicken", "Salt"] ["Chicken"] "chi").2.2.2 (by decide)]
    decide
  · rw [(C9_autosuggest ["Chicken", "Salt"] [] "chi").2.2.2 (by decide)]
    decide

/-- C1: for a non-empty ingredient list (and lookups that return a
record carrying the queried id), every retained recipe's id occurs in
every ingredient's candidate list, and the result holds at most 20
records. -/
theorem C1_subset_cap (fetchCand : String → Option (List String))
    (lookup : String → Option (Option Meal)) (f : Filters) (ings : List String)
    (hne : ings ≠ [])
    (hcons : ∀ (id : String) (m : Meal), lookup id = some (some m) → m.idMeal = id) :
    (run fetchCand lookup f ings).meals.length ≤ 20 ∧
    ∀ m ∈ (run fetchCand lookup f ings).meals, ∀ ing ∈ ings,
      ∃ cand, fetchCand ing = some cand ∧ m.idMeal ∈ cand := by
  have hlen : ¬ ings.length = 0 := by simpa [List.length_eq_zero] using hne
  unfold run
  rw [if_neg hlen]
  cases h1 : allSome (ings.map fetchCand) with
  | none =>
    dsimp only
    exact ⟨Nat.zero_le _, by intro m hm; simp at hm⟩
  | some lists =>
    dsimp only
    cases h2 : allSome (((intersectIds (lists.map dedupFirst)).take 20).map lookup) with
    | none =>
      dsimp only
      exact ⟨Nat.zero_le _, by intro m hm; simp at hm⟩
    | some details =>
      dsimp only
      have hd : details.length = ((intersectIds (lists.map dedupFirst)).take 20).length := by
        have hmap := allSome_eq_some _ _ h2
        calc details.length = (details.map some).length := (List.length_map _ _).symm
          _ = _ := by rw [← hmap, List.length_map]
      constructor
      · calc ((details.filterMap id).filter (mealFilter f)).length
            ≤ (details.filterMap id).length := List.length_filter_le _ _
          _ ≤ details.length := length_filterMap_le _ _
          _ = _ := hd
          _ ≤ 20 := List.length_take_le _ _
      · intro m hm ing hing
        have hm1 : m ∈ details.filterMap id := (List.mem_filter.1 hm).1
        obtain ⟨o, ho, hoe⟩ := List.mem_filterMap.1 hm1
        have hsome : some m ∈ details := by
          have : o = some m := hoe
          rw [← this]
          exact ho
        have hmap2 := allSome_eq_some _ _ h2
        have hmm : some (some m) ∈
            ((intersectIds (lists.map dedupFirst)).take 20).map lookup := by
          rw [hmap2]
          exact List.mem_map_of_mem some hsome
        obtain ⟨id₀, hid₀, hlk⟩ := List.mem_map.1 hmm
        have hidm : m.idMeal = id₀ := hcons id₀ m hlk
        have hid₀' : id₀ ∈ intersectIds (lists.map dedupFirst) :=
          List.take_subset _ _ hid₀
        have hall := mem_intersectIds hid₀'
        have hmap1 := allSome_eq_some _ _ h1
        have hfi : fetchCand ing ∈ lists.map some := by
          rw [← hmap1]
          exact List.mem_map_of_mem fetchCand hing
        obtain ⟨l, hl, hle⟩ := List.mem_map.1 hfi
        refine ⟨l, hle.symm, ?_⟩
        have hmemdedup : id₀ ∈ dedupFirst l :=
          hall _ (List.mem_map_of_mem dedupFirst hl)
        rw [hidm]
        exact mem_dedupFirst hmemdedup

theorem C1_subset_cap_witness :
    (run wFetch wLookup defaultFilters ["tomato"]).meals.length ≤ 20 ∧
    ∀ m ∈ (run wFetch wLookup defaultFilters ["tomato"]).meals, ∀ ing ∈ ["tomato"],
      ∃ cand, wFetch ing = some cand ∧ m.idMeal ∈ cand :=
  C1_subset_cap wFetch wLookup defaultFilters ["tomato"] (by decide) wLookup_consistent

/-- C3: if any per-ingredient candidate fetch fails, the whole run
fails: empty result list, no selection, and the single generic error
message. -/
theorem C3_step1_failure_fatal (fetchCand : String → Option (List String))
    (lookup : String → Option (Option Meal)) (f : Filters) (ings : List String)
    (ing : String) (hmem : ing ∈ ings) (hfail : fetchCand ing = none) :
    run fetchCand lookup f ings = ⟨errorMessage, [], none⟩ := by
  have hlen : ¬ ings.length = 0 := by
    simpa [List.length_eq_zero] using List.ne_nil_of_mem hmem
  unfold run
  rw [if_neg hlen]
  have hnone : allSome (ings.map fetchCand) = none := by
    apply allSome_none_of_mem
    rw [← hfail]
    exact List.mem_map_of_mem fetchCand hmem
  rw [hnone]

theorem C3_step1_failure_fatal_witness :
    run (fun _ => none) (fun _ => some none) defaultFilters ["egg"] =
      ⟨errorMessage, [], none⟩ :=
  C3_step1_failure_fatal _ _ defaultFilters ["egg"] "egg" (by decide) rfl

/-- Lookup oracle for the C4 counterexample: id 1 resolves, the lookup
of any other id is rejected. -/
def cexLookup : String → Option (Option Meal) :=
  fun id => if id = "1" then some (some sampleMeal) else none

/-- C4 counterexample: a rejected lookup-by-id request is NOT tolerated:
with candidate ids 1 and 2 where the lookup of id 2 fails, the whole run
aborts with the generic error and an empty result, instead of dropping
id 2 and completing normally. -/
theorem C4_lookup_rejection_fatal :
    (run wFetch cexLookup defaultFilters ["tomato"]).error ≠ "" ∧
    (run wFetch cexLookup defaultFilters ["tomato"]).meals = [] := by
  constructor <;> decide

/-- C4 (amended): a lookup that completes without a matching record is
tolerated — the id is simply dropped — and the run finishes with no
error; every retained record is backed by a successful lookup of its own
id.  (A rejected lookup request, by contrast, aborts the run.) -/
theorem C4_missing_detail_tolerated (fetchCand : String → Option (List String))
    (lookup : String → Option (Option Meal)) (f : Filters) (ings : List String)
    (hne : ings ≠ [])
    (hfetch : ∀ ing ∈ ings, fetchCand ing ≠ none)
    (hlook : ∀ id, lookup id ≠ none)
    (hcons : ∀ (id : String) (m : Meal), lookup id = some (some m) → m.idMeal = id) :
    (run fetchCand lookup f ings).error = "" ∧
    ∀ m ∈ (run fetchCand lookup f ings).meals, lookup m.idMeal = some (some m) := by
  have hlen : ¬ ings.length = 0 := by simpa [List.length_eq_zero] using hne
  unfold run
  rw [if_neg hlen]
  obtain ⟨lists, h1⟩ := allSome_isSome (ings.map fetchCand) (by
    intro x hx
    obtain ⟨ing, hing, hxe⟩ := List.mem_map.1 hx
    rw [← hxe]
    exact hfetch ing hing)
  rw [h1]
  dsimp only
  obtain ⟨details, h2⟩ :=
    allSome_isSome (((intersectIds (lists.map dedupFirst)).take 20).map lookup) (by
      intro x hx
      obtain ⟨i, _, hxe⟩ := List.mem_map.1 hx
      rw [← hxe]
      exact hlook i)
  rw [h2]
  dsimp only
  refine ⟨rfl, ?_⟩
  intro m hm
  have hm1 : m ∈ details.filterMap id := (List.mem_filter.1 hm).1
  obtain ⟨o, ho, hoe⟩ := List.mem_filterMap.1 hm1
  have hsome : some m ∈ details := by
    have : o = some m := hoe
    rw [← this]
    exact ho
  have hmap2 := allSome_eq_some _ _ h2
  have hmm : some (some m) ∈
      ((intersectIds (lists.map dedupFirst)).take 20).map lookup := by
    rw [hmap2]
    exact List.mem_map_of_mem some hsome
  obtain ⟨id₀, _, hlk⟩ := List.mem_map.1 hmm
  have hidm : m.idMeal = id₀ := hcons id₀ m hlk
  rw [hidm]
  exact hlk

theorem C4_missing_detail_tolerated_witness :
    (run wFetch wLookup defaultFilters ["tomato"]).error = "" ∧
    ∀ m ∈ (run wFetch wLookup defaultFilters ["tomato"]).meals,
      wLookup m.idMeal = some (some m) := by
  apply C4_missing_detail_tolerated wFetch wLookup defaultFilters ["tomato"] (by decide)
  · intro ing _
    simp [wFetch]
  · intro id
    unfold wLookup
    split <;> simp
  · exact wLookup_consistent

end RecipeApp
